import Mathlib

/-!
# Verification of the DevAgent analysis and scoring engine

Shallow embedding of `src/dev_agent.py` (class `DevAgent`): the rule
battery (`analyze_code`), the suggestion checks (`generate_suggestions`),
the scoring arithmetic (`calculate_score`), the per-file assembler
(`review_file`) and the extension filter (`is_code_file`), together with
the Python string and path primitives they rely on.

Modelling conventions:
* a Python string is its sequence of characters, `List Char` (named `Str`);
* Python floats are modelled by `Rat`; every constant the code manipulates
  (0.1, 0.5, 0.0, 1.0 and their sums) is exactly representable and the
  comparisons the code performs are exact in both arithmetics;
* the file read performed by `review_file` is abstracted into an explicit
  `ReadResult` argument (content on success, exception text on failure);
* the `timestamp` field of a review (a wall-clock instant) is outside the
  embedding.
-/

/-- A Python string: its sequence of characters. -/
abbrev Str := List Char

/-- Character data of a Lean string literal, used to write `Str` constants. -/
def str (s : String) : Str := s.data

/-- Python `pat in s`: `pat` occurs as a contiguous substring of `s`
(an empty `pat` is contained in every string). -/
def strContains : Str → Str → Bool
  | [], pat => pat.isEmpty
  | c :: t, pat => pat.isPrefixOf (c :: t) || strContains t pat

/-- Python `s.endswith(suff)`. -/
def strEndsWith (s suff : Str) : Bool := suff.isSuffixOf s

/-- Python `min(a, b)` on floats (returns the first argument on ties). -/
def pymin (a b : Rat) : Rat := if a ≤ b then a else b

/-- Python `max(a, b)` on floats (returns the first argument on ties). -/
def pymax (a b : Rat) : Rat := if a ≥ b then a else b

/-- Prepend a character to the first part of a split (helper for
`splitOnChar`). -/
def consHead (c : Char) : List Str → List Str
  | [] => [[c]]
  | l :: ls => (c :: l) :: ls

/-- Python `s.split(sep)` for a one-character separator: split at every
occurrence of `sep`, keeping empty parts; the empty string gives one empty
part. -/
def splitOnChar (sep : Char) : Str → List Str
  | [] => [[]]
  | c :: t => if c = sep then [] :: splitOnChar sep t else consHead c (splitOnChar sep t)

/-- Python `content.split('\n')`, the line splitter used by `analyze_code`
and `calculate_score`. -/
def splitLines (s : Str) : List Str := splitOnChar '\n' s

/-- Python `str.strip` whitespace class (the ASCII part, which is all the
code's inputs exercise). -/
def pyIsSpace (c : Char) : Bool :=
  c = ' ' || c = '\t' || c = '\n' || c = '\r' || c = '\x0b' || c = '\x0c'

/-- Python `s.strip()`: remove leading and trailing whitespace. -/
def pyStrip (s : Str) : Str :=
  ((s.dropWhile pyIsSpace).reverse.dropWhile pyIsSpace).reverse

/-- Python `s.lower()` (ASCII case folding, which is all the extension
lists exercise). -/
def pyLower (s : Str) : Str := s.map Char.toLower

/-- Python `pathlib.Path(p).name` for a slash-separated path with no
trailing separator: the final path component. -/
def pathName (path : Str) : Str := ((splitOnChar '/' path).getLast?).getD []

/-- Python `pathlib.Path(p).suffix`: with `name` the final component and
`i = name.rfind('.')`, the result is `name[i:]` when `0 < i < len(name) - 1`
and `''` otherwise.  Splitting `name` on `'.'`, the segment after the last
dot is `ext`; a dot exists iff there are at least two segments, `i` is
`len(name) - len(ext) - 1`, so the two side conditions are `ext ≠ ''` and
`len(ext) + 1 < len(name)`. -/
def pathSuffix (path : Str) : Str :=
  let name := pathName path
  let parts := splitOnChar '.' name
  let ext := (parts.getLast?).getD []
  if 2 ≤ parts.length ∧ ext ≠ [] ∧ ext.length + 1 < name.length then '.' :: ext
  else []

/-- One detected problem: the dictionaries built by `analyze_code` and by
`review_file`'s failure handler.  `line` and `code` are `None` only on the
synthetic file-level issue. -/
structure Issue where
  severity : Str
  message : Str
  line : Option Nat
  code : Option Str
deriving DecidableEq

/-- One proposed improvement: the dictionaries built by
`generate_suggestions`. -/
structure Suggestion where
  title : Str
  description : Str
  code : Str
  impact : Str
deriving DecidableEq

/-- The `CodeReview` record (without its `timestamp` field, a wall-clock
instant outside the embedding). -/
structure CodeReview where
  file_path : Str
  issues : List Issue
  suggestions : List Suggestion
  score : Rat
deriving DecidableEq

/-- Outcome of the external file read in `review_file`: the decoded content
on success, the exception text on any read or decoding failure. -/
inductive ReadResult where
  | ok (content : Str)
  | error (msg : Str)

namespace DevAgent

/-- `DevAgent.code_extensions`. -/
def code_extensions : List Str :=
  [str ".rs", str ".js", str ".ts", str ".py", str ".java", str ".cpp",
   str ".c", str ".go", str ".php"]

/-- `DevAgent.is_code_file`: `file_path.suffix.lower() in self.code_extensions`. -/
def is_code_file (file_path : Str) : Bool :=
  code_extensions.contains (pyLower (pathSuffix file_path))

/-- The body of `analyze_code`'s per-line loop: the four checks in source
order, each appending at most one issue for the 1-based line number `i`. -/
def checkLine (file_path : Str) (i : Nat) (line : Str) : List Issue :=
  (if strContains line (str "TODO") || strContains line (str "FIXME") then
    [⟨str "Medium", str "TODO or FIXME comment found", some i, some (pyStrip line)⟩]
   else [])
  ++ (if 120 < line.length then
    [⟨str "Low", str "Line too long (over 120 characters)", some i, some (pyStrip line)⟩]
   else [])
  ++ (if strContains line (str "\"password\"") || strContains line (str "\"secret\"") then
    [⟨str "High", str "Potential hardcoded secret found", some i, some (pyStrip line)⟩]
   else [])
  ++ (if strContains line (str ".unwrap()") && strEndsWith file_path (str ".rs") then
    [⟨str "High", str "Unsafe unwrap() usage found", some i, some (pyStrip line)⟩]
   else [])

/-- The loop `for i, line in enumerate(lines, 1)` of `analyze_code`,
with `i` the number of the first line of `ls`. -/
def analyzeLines (file_path : Str) : Nat → List Str → List Issue
  | _, [] => []
  | i, line :: rest => checkLine file_path i line ++ analyzeLines file_path (i + 1) rest

/-- `DevAgent.analyze_code`: split the content into lines and run the rule
battery over each, collecting issues in scan order. -/
def analyze_code (content file_path : Str) : List Issue :=
  analyzeLines file_path 1 (splitLines content)

/-- The structured-logging suggestion dictionary. -/
def sLog : Suggestion :=
  ⟨str "Use structured logging",
   str "Consider using a logging framework instead of println!",
   str "use tracing::\x7binfo, warn, error\x7d;",
   str "Medium"⟩

/-- The proper-error-handling suggestion dictionary. -/
def sErr : Suggestion :=
  ⟨str "Handle errors properly",
   str "Consider using proper error handling instead of unwrap()",
   str "// Use .map_err() or ? operator instead",
   str "High"⟩

/-- The type-annotations suggestion dictionary. -/
def sType : Suggestion :=
  ⟨str "Add type hints",
   str "Consider adding type annotations for better code clarity",
   str "from typing import List, Dict, Optional",
   str "Medium"⟩

/-- `DevAgent.generate_suggestions`: three whole-file checks in source
order, each appending at most one suggestion. -/
def generate_suggestions (content file_path : Str) : List Suggestion :=
  (if strContains content (str "println!") && strEndsWith file_path (str ".rs") then [sLog]
   else [])
  ++ (if strContains content (str ".unwrap()") && strEndsWith file_path (str ".rs") then [sErr]
   else [])
  ++ (if strEndsWith file_path (str ".py") && strContains content (str "def ") then [sType]
   else [])

/-- `DevAgent.calculate_score`.  The sequential updates of the source's
`score` variable are written as one arithmetic expression: starting value
1.0, minus the capped penalty, plus each conditional 0.1 bonus, then the
final `max(0.0, min(1.0, score))`.  Note that the source gates the second
bonus on `str().endswith('.rs')` — the suffix of a fixed empty string —
embedded verbatim as `strEndsWith [] (str ".rs")`. -/
def calculate_score (content : Str) (issues : List Issue) : Rat :=
  let lines := splitLines content
  if lines.length = 0 then 1
  else
    pymax 0 (pymin 1
      ((1 - pymin ((issues.length : Rat) * (1 / 10)) (1 / 2))
        + (if strContains content (str "use tracing::") then (1 : Rat) / 10 else 0)
        + (if strContains content (str "Result<") && strEndsWith [] (str ".rs") then
            (1 : Rat) / 10
           else 0)))

/-- `DevAgent.review_file`, with the file read abstracted into a
`ReadResult`.  The `except` arm builds the degraded review of the source's
failure handler. -/
def review_file (file_path : Str) (r : ReadResult) : CodeReview :=
  match r with
  | .ok content =>
    ⟨file_path, analyze_code content file_path, generate_suggestions content file_path,
     calculate_score content (analyze_code content file_path)⟩
  | .error e =>
    ⟨file_path, [⟨str "Critical", str "Error reading file: " ++ e, none, none⟩], [], 0⟩

end DevAgent

open DevAgent

/-- The unsafe-unwrap issue recognizer used to trace that issue through the
rule battery: severity `High` and the unwrap message. -/
def isUnwrapIssue (issue : Issue) : Bool :=
  issue.severity == str "High" && issue.message == str "Unsafe unwrap() usage found"

/-- Recognizer for the unwrap message alone, used to show no issue of the
battery carries it when the language gate is off. -/
def hasUnwrapMsg (issue : Issue) : Bool :=
  issue.message == str "Unsafe unwrap() usage found"

/-- A concrete content exercising the dead `Result<` bonus: one line holding
a marker comment and the fallible-result type-marker. -/
def resultContent : Str := str "TODO Result<i32>"

/-- A concrete Rust file path for the dead-bonus experiment. -/
def resultPath : Str := str "lib.rs"

/-- A concrete 130-character line triggering the marker, length and secret
rules at once. -/
def c5content : Str := str "TODO \"secret\"" ++ List.replicate 117 'x'

/-! ## String and path primitive lemmas -/

theorem consHead_ne_nil (c : Char) (ls : List Str) : consHead c ls ≠ [] := by
  cases ls <;> simp [consHead]

theorem splitOnChar_cons_pos {sep c : Char} (t : Str) (hc : c = sep) :
    splitOnChar sep (c :: t) = [] :: splitOnChar sep t := by
  simp [splitOnChar, hc]

theorem splitOnChar_cons_neg {sep c : Char} (t : Str) (hc : ¬c = sep) :
    splitOnChar sep (c :: t) = consHead c (splitOnChar sep t) := by
  simp [splitOnChar, hc]

theorem splitOnChar_ne_nil (sep : Char) (s : Str) : splitOnChar sep s ≠ [] := by
  cases s with
  | nil => simp [splitOnChar]
  | cons c t =>
    by_cases hc : c = sep
    · rw [splitOnChar_cons_pos t hc]; simp
    · rw [splitOnChar_cons_neg t hc]; exact consHead_ne_nil c _

theorem splitOnChar_singleton (sep : Char) (s part : Str)
    (h : splitOnChar sep s = [part]) : part = s := by
  induction s generalizing part with
  | nil =>
    simp only [splitOnChar] at h
    simp at h
    exact h
  | cons c t ih =>
    by_cases hc : c = sep
    · rw [splitOnChar_cons_pos t hc] at h
      cases h' : splitOnChar sep t with
      | nil => exact absurd h' (splitOnChar_ne_nil sep t)
      | cons a as => rw [h'] at h; simp at h
    · rw [splitOnChar_cons_neg t hc] at h
      cases h' : splitOnChar sep t with
      | nil => exact absurd h' (splitOnChar_ne_nil sep t)
      | cons a as =>
        rw [h'] at h
        simp only [consHead] at h
        simp at h
        obtain ⟨h1, h2⟩ := h
        subst h2
        have ha : a = t := ih a h'
        subst ha
        exact h1.symm

theorem splitOnChar_getLast_suffix (sep : Char) (s last : Str)
    (h : (splitOnChar sep s).getLast? = some last) : last <:+ s := by
  induction s generalizing last with
  | nil =>
    simp only [splitOnChar] at h
    simp at h
    subst h
    exact List.nil_suffix
  | cons c t ih =>
    by_cases hc : c = sep
    · rw [splitOnChar_cons_pos t hc] at h
      cases h' : splitOnChar sep t with
      | nil => exact absurd h' (splitOnChar_ne_nil sep t)
      | cons a as =>
        rw [h', List.getLast?_cons_cons] at h
        have hh : (splitOnChar sep t).getLast? = some last := by rw [h']; exact h
        exact (ih last hh).trans (List.suffix_cons c t)
    · rw [splitOnChar_cons_neg t hc] at h
      cases h' : splitOnChar sep t with
      | nil => exact absurd h' (splitOnChar_ne_nil sep t)
      | cons a as =>
        rw [h'] at h
        simp only [consHead] at h
        cases as with
        | nil =>
          rw [List.getLast?_singleton] at h
          have hlast : c :: a = last := by injection h
          have ha : a = t := splitOnChar_singleton sep t a h'
          subst ha
          rw [← hlast]
        | cons b bs =>
          rw [List.getLast?_cons_cons] at h
          have hh : (splitOnChar sep t).getLast? = some last := by
            rw [h', List.getLast?_cons_cons]; exact h
          exact (ih last hh).trans (List.suffix_cons c t)

theorem splitOnChar_getLast_sep_suffix (sep : Char) (s last : Str)
    (hlen : 2 ≤ (splitOnChar sep s).length)
    (h : (splitOnChar sep s).getLast? = some last) : sep :: last <:+ s := by
  induction s generalizing last with
  | nil => simp [splitOnChar] at hlen
  | cons c t ih =>
    by_cases hc : c = sep
    · rw [splitOnChar_cons_pos t hc] at h
      cases h' : splitOnChar sep t with
      | nil => exact absurd h' (splitOnChar_ne_nil sep t)
      | cons a as =>
        rw [h'] at h
        cases as with
        | nil =>
          rw [List.getLast?_cons_cons, List.getLast?_singleton] at h
          have hlast : a = last := by injection h
          have ha : a = t := splitOnChar_singleton sep t a h'
          subst hc
          rw [← hlast, ha]
        | cons b bs =>
          rw [List.getLast?_cons_cons] at h
          have hlen2 : 2 ≤ (splitOnChar sep t).length := by rw [h']; simp
          have hh : (splitOnChar sep t).getLast? = some last := by
            rw [h', List.getLast?_cons_cons]; exact h
          exact (ih last hlen2 hh).trans (List.suffix_cons c t)
    · rw [splitOnChar_cons_neg t hc] at h
      rw [splitOnChar_cons_neg t hc] at hlen
      cases h' : splitOnChar sep t with
      | nil => exact absurd h' (splitOnChar_ne_nil sep t)
      | cons a as =>
        rw [h'] at h hlen
        simp only [consHead] at h hlen
        cases as with
        | nil => simp at hlen
        | cons b bs =>
          rw [List.getLast?_cons_cons] at h
          have hlen2 : 2 ≤ (splitOnChar sep t).length := by rw [h']; simp
          have hh : (splitOnChar sep t).getLast? = some last := by
            rw [h', List.getLast?_cons_cons]; exact h
          exact (ih last hlen2 hh).trans (List.suffix_cons c t)

theorem pathName_suffix (path : Str) : pathName path <:+ path := by
  unfold pathName
  cases h : (splitOnChar '/' path).getLast? with
  | none => exact absurd (List.getLast?_eq_none_iff.mp h) (splitOnChar_ne_nil '/' path)
  | some n =>
    rw [Option.getD_some]
    exact splitOnChar_getLast_suffix '/' path n h

theorem pathSuffix_suffix (path : Str) (hne : pathSuffix path ≠ []) :
    pathSuffix path <:+ path := by
  unfold pathSuffix at hne ⊢
  dsimp only at hne ⊢
  split at hne
  case isFalse => exact absurd rfl hne
  case isTrue hcond =>
    rw [if_pos hcond]
    obtain ⟨h2, hx, hlt⟩ := hcond
    cases hlast : (splitOnChar '.' (pathName path)).getLast? with
    | none => exact absurd (List.getLast?_eq_none_iff.mp hlast) (splitOnChar_ne_nil _ _)
    | some ext =>
      rw [Option.getD_some]
      have hsep : '.' :: ext <:+ pathName path :=
        splitOnChar_getLast_sep_suffix '.' (pathName path) ext h2 hlast
      exact hsep.trans (pathName_suffix path)

theorem suffix_eq_of_length {l₁ l₂ l : Str} (h₁ : l₁ <:+ l) (h₂ : l₂ <:+ l)
    (hlen : l₁.length = l₂.length) : l₁ = l₂ := by
  rw [List.suffix_iff_eq_drop] at h₁ h₂
  rw [h₁, h₂, hlen]

theorem strEndsWith_iff (s suff : Str) : strEndsWith s suff = true ↔ suff <:+ s :=
  List.isSuffixOf_iff_suffix

theorem pyLower_length (s : Str) : (pyLower s).length = s.length := by
  simp [pyLower]

theorem strEndsWith_nil_rs : strEndsWith [] (str ".rs") = false := rfl

/-! ## Engine lemmas -/

theorem any_if_singleton (c : Prop) [Decidable c] (x : Issue) (p : Issue → Bool) :
    (if c then [x] else []).any p = if c then p x else false := by
  split <;> simp

theorem all_if_singleton (c : Prop) [Decidable c] (x : Issue) (p : Issue → Bool) :
    (if c then [x] else []).all p = if c then p x else true := by
  split <;> simp

theorem ite_eq_bool (b : Bool) : (if b = true then true else false) = b := by
  cases b <;> simp

theorem bool_or_and_right : ∀ a b e : Bool, (a && e || b && e) = ((a || b) && e) := by decide

theorem isUnwrapIssue_marker (l : Option Nat) (c : Option Str) :
    isUnwrapIssue ⟨str "Medium", str "TODO or FIXME comment found", l, c⟩ = false := rfl

theorem isUnwrapIssue_length (l : Option Nat) (c : Option Str) :
    isUnwrapIssue ⟨str "Low", str "Line too long (over 120 characters)", l, c⟩ = false := rfl

theorem isUnwrapIssue_secret (l : Option Nat) (c : Option Str) :
    isUnwrapIssue ⟨str "High", str "Potential hardcoded secret found", l, c⟩ = false := rfl

theorem isUnwrapIssue_unwrap (l : Option Nat) (c : Option Str) :
    isUnwrapIssue ⟨str "High", str "Unsafe unwrap() usage found", l, c⟩ = true := rfl

theorem hasUnwrapMsg_marker (l : Option Nat) (c : Option Str) :
    hasUnwrapMsg ⟨str "Medium", str "TODO or FIXME comment found", l, c⟩ = false := rfl

theorem hasUnwrapMsg_length (l : Option Nat) (c : Option Str) :
    hasUnwrapMsg ⟨str "Low", str "Line too long (over 120 characters)", l, c⟩ = false := rfl

theorem hasUnwrapMsg_secret (l : Option Nat) (c : Option Str) :
    hasUnwrapMsg ⟨str "High", str "Potential hardcoded secret found", l, c⟩ = false := rfl

theorem hasUnwrapMsg_unwrap (l : Option Nat) (c : Option Str) :
    hasUnwrapMsg ⟨str "High", str "Unsafe unwrap() usage found", l, c⟩ = true := rfl

theorem checkLine_any_unwrap (fp : Str) (i : Nat) (line : Str) :
    (checkLine fp i line).any isUnwrapIssue =
      (strContains line (str ".unwrap()") && strEndsWith fp (str ".rs")) := by
  simp only [checkLine, List.any_append, any_if_singleton, isUnwrapIssue_marker,
    isUnwrapIssue_length, isUnwrapIssue_secret, isUnwrapIssue_unwrap,
    ite_self, ite_eq_bool, Bool.false_or, Bool.or_false]

theorem analyzeLines_any_unwrap (fp : Str) (ls : List Str) (i : Nat) :
    (analyzeLines fp i ls).any isUnwrapIssue =
      (ls.any (fun line => strContains line (str ".unwrap()")) && strEndsWith fp (str ".rs")) := by
  induction ls generalizing i with
  | nil => rfl
  | cons line rest ih =>
    show (checkLine fp i line ++ analyzeLines fp (i + 1) rest).any isUnwrapIssue = _
    rw [List.any_append, checkLine_any_unwrap, ih (i + 1), bool_or_and_right]
    rfl

theorem checkLine_any_msg (fp : Str) (i : Nat) (line : Str) :
    (checkLine fp i line).any hasUnwrapMsg =
      (strContains line (str ".unwrap()") && strEndsWith fp (str ".rs")) := by
  simp only [checkLine, List.any_append, any_if_singleton, hasUnwrapMsg_marker,
    hasUnwrapMsg_length, hasUnwrapMsg_secret, hasUnwrapMsg_unwrap,
    ite_self, ite_eq_bool, Bool.false_or, Bool.or_false]

theorem analyzeLines_any_msg (fp : Str) (ls : List Str) (i : Nat) :
    (analyzeLines fp i ls).any hasUnwrapMsg =
      (ls.any (fun line => strContains line (str ".unwrap()")) && strEndsWith fp (str ".rs")) := by
  induction ls generalizing i with
  | nil => rfl
  | cons line rest ih =>
    show (checkLine fp i line ++ analyzeLines fp (i + 1) rest).any hasUnwrapMsg = _
    rw [List.any_append, checkLine_any_msg, ih (i + 1), bool_or_and_right]
    rfl

theorem analyze_code_any_msg (content fp : Str) :
    (analyze_code content fp).any hasUnwrapMsg =
      ((splitLines content).any (fun line => strContains line (str ".unwrap()")) &&
        strEndsWith fp (str ".rs")) :=
  analyzeLines_any_msg fp (splitLines content) 1

theorem checkLine_all_line_code (fp : Str) (i : Nat) (line : Str) :
    (checkLine fp i line).all
      (fun issue => issue.line == some i && issue.code == some (pyStrip line)) = true := by
  simp only [checkLine, List.all_append, all_if_singleton, beq_self_eq_true,
    Bool.and_self, ite_self, Bool.and_true]

theorem analyzeLines_line_code (fp : Str) (ls : List Str) (i : Nat) (issue : Issue)
    (h : issue ∈ analyzeLines fp i ls) :
    issue.line.isSome = true ∧ issue.code.isSome = true := by
  induction ls generalizing i with
  | nil => simp [analyzeLines] at h
  | cons line rest ih =>
    simp only [analyzeLines] at h
    rcases List.mem_append.mp h with h1 | h1
    · have h2 := List.all_eq_true.mp (checkLine_all_line_code fp i line) issue h1
      rw [Bool.and_eq_true, beq_iff_eq, beq_iff_eq] at h2
      constructor
      · rw [h2.1]; rfl
      · rw [h2.2]; rfl
    · exact ih (i + 1) h1

theorem calculate_score_expand (content : Str) (issues : List Issue)
    (h : (splitLines content).length ≠ 0)
    (htr : strContains content (str "use tracing::") = false) :
    calculate_score content issues =
      pymax 0 (pymin 1 (1 - pymin ((issues.length : Rat) * (1 / 10)) (1 / 2))) := by
  simp only [calculate_score, if_neg h, htr, strEndsWith_nil_rs, Bool.and_false,
    Bool.false_eq_true, if_false, add_zero]

/-! ## The claims -/

/-- C1: the spec wants the second 0.1 bonus added exactly when the content
contains `Result<` and the path ends in `.rs`; the code instead gates it on
`str().endswith('.rs')`, the suffix of a fixed empty string, so the bonus
never fires.  At the concrete Rust-path input below containing `Result<`
the score stays at 9/10 (one marker issue, no bonus) where the claimed
behavior would give 1.  -/
theorem result_bonus_never_added :
    strContains resultContent (str "Result<") = true ∧
      strEndsWith resultPath (str ".rs") = true ∧
      analyze_code resultContent resultPath =
        [⟨str "Medium", str "TODO or FIXME comment found", some 1, some resultContent⟩] ∧
      calculate_score resultContent (analyze_code resultContent resultPath) = 9 / 10 := by
  have hissues : analyze_code resultContent resultPath =
      [⟨str "Medium", str "TODO or FIXME comment found", some 1, some resultContent⟩] := by
    decide
  refine ⟨by decide, by decide, hissues, ?_⟩
  rw [hissues, calculate_score_expand resultContent _ (by decide) (by decide)]
  norm_num [pymin, pymax]

/-- C2: for every path and every read failure, `review_file` returns the
degraded review: exactly one `Critical` issue with absent `line` and
`code`, no suggestions, and score 0; the failure is not propagated (the
function is total on the failure case). -/
theorem review_file_error_degraded (file_path e : Str) :
    review_file file_path (.error e) =
      ⟨file_path, [⟨str "Critical", str "Error reading file: " ++ e, none, none⟩], [], 0⟩ :=
  rfl

/-- C3: the empty content (which splits into a single empty line) yields an
empty issue sequence from `analyze_code` under every path, and
`calculate_score` on it returns exactly 1, with no penalty and no bonus. -/
theorem empty_content_clean (file_path : Str) :
    analyze_code [] file_path = [] ∧
      calculate_score [] (analyze_code [] file_path) = 1 := by
  constructor
  · rfl
  · show calculate_score [] [] = 1
    rw [calculate_score_expand [] [] (by decide) (by decide)]
    norm_num [pymin, pymax]

/-- C4: for every content string and every issue sequence, the value
returned by `calculate_score` lies in the closed interval [0, 1]. -/
theorem calculate_score_in_unit_interval (content : Str) (issues : List Issue) :
    0 ≤ calculate_score content issues ∧ calculate_score content issues ≤ 1 := by
  have hp : (0 : Rat) ≤ (issues.length : Rat) * (1 / 10) := by positivity
  unfold calculate_score
  dsimp only
  split
  · norm_num
  · unfold pymax pymin
    split_ifs <;> constructor <;> linarith

/-- C5: a single-line content containing `TODO`, of length 130, containing
the quoted substring `"secret"`, and not triggering the unwrap rule, yields
exactly three issues, all on line 1, in rule-battery order: marker
(`Medium`), length (`Low`), secret (`High`). -/
theorem triple_issue_line (content file_path : Str)
    (hsingle : splitLines content = [content])
    (htodo : strContains content (str "TODO") = true)
    (hlen : content.length = 130)
    (hsecret : strContains content (str "\"secret\"") = true)
    (hunwrap : (strContains content (str ".unwrap()") &&
      strEndsWith file_path (str ".rs")) = false) :
    analyze_code content file_path =
      [⟨str "Medium", str "TODO or FIXME comment found", some 1, some (pyStrip content)⟩,
       ⟨str "Low", str "Line too long (over 120 characters)", some 1, some (pyStrip content)⟩,
       ⟨str "High", str "Potential hardcoded secret found", some 1, some (pyStrip content)⟩] := by
  unfold analyze_code
  rw [hsingle]
  show checkLine file_path 1 content ++ analyzeLines file_path 2 [] = _
  simp [checkLine, analyzeLines, htodo, hlen, hsecret, hunwrap]

set_option maxRecDepth 40000 in
/-- Witness for C5 at a concrete 130-character line under a non-Rust path. -/
theorem triple_issue_line_witness :
    analyze_code c5content (str "a.py") =
      [⟨str "Medium", str "TODO or FIXME comment found", some 1, some (pyStrip c5content)⟩,
       ⟨str "Low", str "Line too long (over 120 characters)", some 1, some (pyStrip c5content)⟩,
       ⟨str "High", str "Potential hardcoded secret found", some 1, some (pyStrip c5content)⟩] :=
  triple_issue_line c5content (str "a.py") (by decide) (by decide) (by decide) (by decide)
    (by decide)

/-- C6: `analyze_code` emits the High-severity unsafe-unwrap issue exactly
when some line of the content contains `.unwrap()` and the file path ends
in `.rs`; the same content under a non-`.rs` path yields no such issue. -/
theorem unwrap_issue_iff_rs_path (content file_path : Str) :
    (∃ issue ∈ analyze_code content file_path,
        issue.severity = str "High" ∧ issue.message = str "Unsafe unwrap() usage found") ↔
      ((∃ line ∈ splitLines content, strContains line (str ".unwrap()") = true) ∧
        strEndsWith file_path (str ".rs") = true) := by
  have key : (analyze_code content file_path).any isUnwrapIssue =
      ((splitLines content).any (fun line => strContains line (str ".unwrap()")) &&
        strEndsWith file_path (str ".rs")) :=
    analyzeLines_any_unwrap file_path (splitLines content) 1
  constructor
  · rintro ⟨issue, hmem, hsev, hmsg⟩
    have h1 : (analyze_code content file_path).any isUnwrapIssue = true :=
      List.any_eq_true.mpr ⟨issue, hmem, by simp [isUnwrapIssue, hsev, hmsg]⟩
    rw [key, Bool.and_eq_true] at h1
    exact ⟨List.any_eq_true.mp h1.1, h1.2⟩
  · rintro ⟨⟨line, hline, hu⟩, hrs⟩
    have h1 : (analyze_code content file_path).any isUnwrapIssue = true := by
      rw [key, Bool.and_eq_true]
      exact ⟨List.any_eq_true.mpr ⟨line, hline, hu⟩, hrs⟩
    obtain ⟨issue, hmem, hp⟩ := List.any_eq_true.mp h1
    refine ⟨issue, hmem, ?_⟩
    simp only [isUnwrapIssue, Bool.and_eq_true, beq_iff_eq] at hp
    exact hp

/-- C7: for every content and path the suggestion list is a sublist of the
fixed sequence [structured logging, error handling, type hints], so each
suggestion kind appears at most once and in the fixed order. -/
theorem suggestions_at_most_once (content file_path : Str) :
    List.Sublist (generate_suggestions content file_path) [sLog, sErr, sType] ∧
      ∀ s : Suggestion, (generate_suggestions content file_path).count s ≤ 1 := by
  have hsub : List.Sublist (generate_suggestions content file_path) [sLog, sErr, sType] := by
    unfold generate_suggestions
    split_ifs <;> decide
  refine ⟨hsub, fun s => ?_⟩
  have hnd : ([sLog, sErr, sType] : List Suggestion).Nodup := by decide
  exact List.nodup_iff_count_le_one.mp (List.Nodup.sublist hsub hnd) s

/-- C8: with no bonus marker in a non-empty content, six issues score
exactly 1/2 (the penalty is capped at 1/2, not 6/10), and more generally
the issue count alone can never drive the score below 1/2. -/
theorem six_issues_score_half :
    (∀ (content : Str) (issues : List Issue), content ≠ [] →
        strContains content (str "use tracing::") = false → issues.length = 6 →
        calculate_score content issues = 1 / 2) ∧
      (∀ (content : Str) (issues : List Issue),
        strContains content (str "use tracing::") = false →
        1 / 2 ≤ calculate_score content issues) := by
  constructor
  · intro content issues hne htr hlen
    rw [calculate_score_expand content issues
      (fun h0 => splitOnChar_ne_nil '\n' content (List.length_eq_zero.mp h0)) htr, hlen]
    norm_num [pymin, pymax]
  · intro content issues htr
    rw [calculate_score_expand content issues
      (fun h0 => splitOnChar_ne_nil '\n' content (List.length_eq_zero.mp h0)) htr]
    have hp : (0 : Rat) ≤ (issues.length : Rat) * (1 / 10) := by positivity
    unfold pymax pymin
    split_ifs <;> linarith

/-- Witness for C8: a one-character content with six identical issues
scores exactly 1/2. -/
theorem six_issues_score_half_witness :
    calculate_score (str "x") (List.replicate 6 ⟨str "Low", [], none, none⟩) = 1 / 2 :=
  six_issues_score_half.1 (str "x") (List.replicate 6 ⟨str "Low", [], none, none⟩)
    (by decide) (by decide) (by decide)

/-- C9: every issue of a review — the per-line issues of `analyze_code` on
a successful read and the synthetic Critical issue of the failure path —
has `line` and `code` both present or both absent. -/
theorem issue_line_code_together (file_path : Str) (r : ReadResult) (issue : Issue)
    (h : issue ∈ (review_file file_path r).issues) :
    issue.line.isSome = issue.code.isSome := by
  cases r with
  | ok content =>
    have h2 := analyzeLines_line_code file_path (splitLines content) 1 issue h
    rw [h2.1, h2.2]
  | error e =>
    simp only [review_file, List.mem_singleton] at h
    subst h
    rfl

/-- Witness for C9 at the failure path's synthetic Critical issue. -/
theorem issue_line_code_together_witness :
    (⟨str "Critical", str "Error reading file: " ++ str "boom", none, none⟩ : Issue).line.isSome =
      (⟨str "Critical", str "Error reading file: " ++ str "boom", none, none⟩ : Issue).code.isSome :=
  issue_line_code_together (str "p.py") (.error (str "boom"))
    ⟨str "Critical", str "Error reading file: " ++ str "boom", none, none⟩ (by decide)

/-- C10: extension gating is case-inconsistent: a path whose pathlib suffix
lowercases to `.rs` without being exactly `.rs` (e.g. `a.RS`) is accepted
by `is_code_file`, yet the unsafe-unwrap rule never fires on it and neither
Rust-gated suggestion is ever emitted for it, because those gates test the
case-sensitive `endswith('.rs')`. -/
theorem case_inconsistent_extension_gating (path content : Str)
    (hlow : pyLower (pathSuffix path) = str ".rs")
    (hneq : pathSuffix path ≠ str ".rs") :
    is_code_file path = true ∧
      (∀ issue ∈ analyze_code content path, issue.message ≠ str "Unsafe unwrap() usage found") ∧
      sLog ∉ generate_suggestions content path ∧
      sErr ∉ generate_suggestions content path := by
  have hlen3 : (pathSuffix path).length = 3 := by
    have h := congrArg List.length hlow
    rw [pyLower_length] at h
    exact h
  have hrs : strEndsWith path (str ".rs") = false := by
    cases hb : strEndsWith path (str ".rs") with
    | false => rfl
    | true =>
      exfalso
      have hsufrs : str ".rs" <:+ path := (strEndsWith_iff path (str ".rs")).mp hb
      have hnonnil : pathSuffix path ≠ [] := by
        intro h0
        rw [h0] at hlen3
        simp at hlen3
      have hsufps : pathSuffix path <:+ path := pathSuffix_suffix path hnonnil
      exact hneq (suffix_eq_of_length hsufps hsufrs hlen3)
  refine ⟨?_, ?_, ?_, ?_⟩
  · unfold is_code_file
    rw [hlow]
    rfl
  · intro issue hmem hmsg
    have hpred : hasUnwrapMsg issue = true := by simp [hasUnwrapMsg, hmsg]
    have hany : (analyze_code content path).any hasUnwrapMsg = true :=
      List.any_eq_true.mpr ⟨issue, hmem, hpred⟩
    rw [analyze_code_any_msg, hrs, Bool.and_false] at hany
    exact Bool.false_ne_true hany
  · unfold generate_suggestions
    simp only [hrs, Bool.and_false]
    intro hmem
    rw [List.mem_append, List.mem_append] at hmem
    rcases hmem with (h1 | h1) | h1
    · simp at h1
    · simp at h1
    · revert h1
      split
      · intro h1
        rw [List.mem_singleton] at h1
        exact absurd h1 (by decide)
      · intro h1
        simp at h1
  · unfold generate_suggestions
    simp only [hrs, Bool.and_false]
    intro hmem
    rw [List.mem_append, List.mem_append] at hmem
    rcases hmem with (h1 | h1) | h1
    · simp at h1
    · simp at h1
    · revert h1
      split
      · intro h1
        rw [List.mem_singleton] at h1
        exact absurd h1 (by decide)
      · intro h1
        simp at h1

/-- Witness for C10 at the path `a.RS` with a content containing both
`.unwrap()` and `println!`. -/
theorem case_inconsistent_extension_gating_witness :
    is_code_file (str "a.RS") = true ∧
      (∀ issue ∈ analyze_code (str "println! x.unwrap()") (str "a.RS"),
        issue.message ≠ str "Unsafe unwrap() usage found") ∧
      sLog ∉ generate_suggestions (str "println! x.unwrap()") (str "a.RS") ∧
      sErr ∉ generate_suggestions (str "println! x.unwrap()") (str "a.RS") :=
  case_inconsistent_extension_gating (str "a.RS") (str "println! x.unwrap()")
    (by decide) (by decide)
